import Mathlib

/-!
Verification of the snapshot acquisition and retention subsystem of the
VluationDashboard repository.  The definitions below are a shallow
embedding of the two source files:

* scripts/collect_data.py — the batch collector: load_existing_data,
  prepare_records, cleanup_old_data, save_data, get_data_summary and the
  replace/append/trim/save sequence inside main;
* app.py — the refresh scheduler: the private need-refresh predicate and
  fetch_api_data over the Streamlit session state.

Python dictionaries are modelled as insertion-ordered association lists
over a small value type; store-level records are modelled by the
structure Record holding the fields the store logic reads.  Wall-clock
reads (datetime.now) are passed in as explicit parameters.
-/

namespace Valuation

/-- Subset of Python/JSON values needed by the embedded code: strings,
integers and the Python None marker.  The numeric valuation fields are
never inspected by the embedded logic, so integers suffice to carry
them. -/
inductive PyVal where
  | s (str : String)
  | i (int : Int)
  | none
deriving DecidableEq, Repr

/-- A Python dict as an insertion-ordered association list. -/
abbrev Dict := List (String × PyVal)

/-- Python d.get(k): the first value stored under k, if any. -/
def dget (d : Dict) (k : String) : Option PyVal :=
  match d with
  | [] => Option.none
  | (k0, v) :: rest => if k0 = k then some v else dget rest k

/-- Python k in d. -/
def dcontains (d : Dict) (k : String) : Bool :=
  (dget d k).isSome

/-- Replacement of the value stored under an existing key, keeping the
insertion position. -/
def setInPlace : Dict → String → PyVal → Dict
  | [], _, _ => []
  | (k0, v0) :: rest, k, v =>
    if k0 = k then (k, v) :: setInPlace rest k v
    else (k0, v0) :: setInPlace rest k v

/-- Python d[k] = v: replace in place when the key exists, otherwise
append at the end (Python dicts preserve insertion order). -/
def dset (d : Dict) (k : String) (v : PyVal) : Dict :=
  if dcontains d k then setInPlace d k v else d ++ [(k, v)]

/-- Removal part of Python d.pop(k). -/
def dpop (d : Dict) (k : String) : Dict :=
  d.filter (fun p => p.1 ≠ k)

/-- scripts/collect_data.py, prepare_records: the two metadata
assignments record[fetch_date] and record[fetch_timestamp]. -/
def stampMeta (item : Dict) (fetch_date : String) (fetch_timestamp : Int) : Dict :=
  dset (dset item "fetch_date" (PyVal.s fetch_date)) "fetch_timestamp"
    (PyVal.i fetch_timestamp)

/-- scripts/collect_data.py, prepare_records: if yeild in record,
record[dividend_yield] = record.pop(yeild). -/
def fixYeild (r : Dict) : Dict :=
  match dget r "yeild" with
  | some v => dset (dpop r "yeild") "dividend_yield" v
  | Option.none => r

/-- scripts/collect_data.py, prepare_records: if bond_yeild in record,
record[bond_yield] = record.pop(bond_yeild). -/
def fixBondYeild (r : Dict) : Dict :=
  match dget r "bond_yeild" with
  | some v => dset (dpop r "bond_yeild") "bond_yield" v
  | Option.none => r

/-- scripts/collect_data.py, prepare_records body for one item: copy
the item, stamp fetch_date and fetch_timestamp, and fix the two
upstream typos in order. -/
def prepare_record (item : Dict) (fetch_date : String) (fetch_timestamp : Int) : Dict :=
  fixBondYeild (fixYeild (stampMeta item fetch_date fetch_timestamp))

/-- scripts/collect_data.py, prepare_records: every item of the batch is
kept; the loop appends one prepared record per input item.  The single
wall-clock read int(datetime.now().timestamp()) is the parameter
fetch_timestamp. -/
def prepare_records (items : List Dict) (fetch_date : String) (fetch_timestamp : Int) :
    List Dict :=
  items.map (fun item => prepare_record item fetch_date fetch_timestamp)

/-- A ValuationRecord as stored in the history document: the fields the
store logic reads (index_code, name, fetch_date, fetch_timestamp) plus
the remaining metric keys carried opaquely. -/
structure Record where
  index_code : String
  name : String
  fetch_date : String
  fetch_timestamp : Int
  rest : List (String × PyVal)
deriving DecidableEq, Repr

/-- Python strict string comparison on the underlying character lists:
code point lexicographic, a strict prefix is smaller. -/
def strLTlist : List Char → List Char → Bool
  | [], [] => false
  | [], _ :: _ => true
  | _ :: _, [] => false
  | a :: as, b :: bs => if a = b then strLTlist as bs else decide (a < b)

/-- Python a < b on strings. -/
def strLT (a b : String) : Bool := strLTlist a.data b.data

/-- Python a <= b on strings, which holds exactly when b < a does
not. -/
def strLE (a b : String) : Bool := !(strLT b a)

/-- The sort key comparison used by save_data: Python tuple comparison
on (fetch_date, name), i.e. lexicographic over strings. -/
def keyLE (a b : Record) : Prop :=
  strLT a.fetch_date b.fetch_date = true ∨
    (a.fetch_date = b.fetch_date ∧ strLE a.name b.name = true)

/-- Descending form of the save_data sort key: save_data sorts with
reverse=True, so a comes before b when the key of a is at least the key
of b. -/
def keyGE (a b : Record) : Prop := keyLE b a

instance : DecidableRel keyLE := fun a b => by
  unfold keyLE; infer_instance

instance : DecidableRel keyGE := fun a b => by
  unfold keyGE; infer_instance

/-- scripts/collect_data.py, save_data sorting step:
data.sort(key=(fetch_date, name), reverse=True).  Python list.sort is
stable, which the stable insertion sort mirrors. -/
def sortData (data : List Record) : List Record :=
  List.insertionSort keyGE data

/-- scripts/collect_data.py, cleanup_old_data: keep a record when its
fetch_date compares at least the cutoff string.  The cutoff
(today minus days_to_keep, as a zero-padded ISO string) is computed from
the wall clock in the source and passed as a parameter here. -/
def cleanup_old_data (data : List Record) (cutoff_date : String) : List Record :=
  data.filter (fun item => strLE cutoff_date item.fetch_date)

/-- scripts/collect_data.py, main lines 168 to 176: drop every existing
record dated today, append the new records, trim by the retention
cutoff, and sort as save_data does before writing. -/
def mergeAndSave (existing new_records : List Record) (today cutoff_date : String) :
    List Record :=
  let filtered_existing := existing.filter (fun item => item.fetch_date ≠ today)
  let all_data := filtered_existing ++ new_records
  sortData (cleanup_old_data all_data cutoff_date)

/-- scripts/collect_data.py, load_existing_data: when the file exists
its contents are parsed inside a try/except; any read or parse failure
is caught and the empty list returned, as when the file is absent.  The
read-and-parse outcome is the parse parameter. -/
def load_existing_data (fileExists : Bool) (parse : Except String (List Record)) :
    List Record :=
  if fileExists then
    match parse with
    | Except.ok data => data
    | Except.error _ => []
  else []

/-- scripts/collect_data.py, get_data_summary.  On an empty list only
the total_records key is returned.  Otherwise the counts, the extreme
dates and the file size are returned; the file size read from the
filesystem is the parameter file_size_mb. -/
def get_data_summary (file_size_mb : PyVal) (data : List Record) : Dict :=
  match data with
  | [] => [("total_records", PyVal.i 0)]
  | d :: ds =>
    let dates := ((d :: ds).map Record.fetch_date).dedup
    let indices := ((d :: ds).map Record.index_code).dedup
    let earliest :=
      match dates with
      | [] => PyVal.none
      | e :: es => PyVal.s (es.foldl (fun m x => if strLT x m then x else m) e)
    let latest :=
      match dates with
      | [] => PyVal.none
      | e :: es => PyVal.s (es.foldl (fun m x => if strLT m x then x else m) e)
    [("total_records", PyVal.i (d :: ds).length),
     ("total_days", PyVal.i dates.length),
     ("total_indices", PyVal.i indices.length),
     ("earliest_date", earliest),
     ("latest_date", latest),
     ("file_size_mb", file_size_mb)]

/-- scripts/collect_data.py, the DATA_FILE constant. -/
def DATA_FILE : String := "data/valuation_history.json"

/-- Filesystem operations performed by save_data on the durable
document.  Python open(path, w) truncates the target in place before
any bytes are written; json.dump then writes the serialized content. -/
inductive FsOp where
  | openTrunc (path : String)
  | writeAll (path : String) (content : String)
deriving DecidableEq, Repr

/-- A filesystem as a partial map from paths to file contents. -/
def FileSys := String → Option String

/-- Effect of one filesystem operation. -/
def applyOp (fs : FileSys) : FsOp → FileSys
  | FsOp.openTrunc p => fun q => if q = p then some "" else fs q
  | FsOp.writeAll p c => fun q => if q = p then some c else fs q

/-- Run a list of filesystem operations in order; a crash mid-save is
modelled by running only a prefix of the list. -/
def runOps (fs : FileSys) (ops : List FsOp) : FileSys :=
  ops.foldl applyOp fs

/-- scripts/collect_data.py, save_data write phase: the target file is
opened for writing directly (truncating it) and the serialized sorted
data, here the string content, is written to the same path.  No
temporary file and no rename are used. -/
def save_data_ops (content : String) : List FsOp :=
  [FsOp.openTrunc DATA_FILE, FsOp.writeAll DATA_FILE content]

/-- Wall-clock instants as used by app.py: a calendar day index and a
minute of that day.  Python datetime comparison is lexicographic on
(date, time). -/
structure DateTime where
  day : Nat
  minute : Nat
deriving DecidableEq, Repr

/-- Python datetime strict comparison. -/
def dtLT (a b : DateTime) : Prop :=
  a.day < b.day ∨ (a.day = b.day ∧ a.minute < b.minute)

/-- Python datetime non-strict comparison. -/
def dtLE (a b : DateTime) : Prop :=
  dtLT a b ∨ a = b

instance : DecidableRel dtLT := fun a b => by
  unfold dtLT; infer_instance

instance : DecidableRel dtLE := fun a b => by
  unfold dtLE; infer_instance

/-- app.py, the target refresh instant inside the need-refresh check:
datetime.combine(now.date(), time(20, 0)), i.e. today at 20:00. -/
def refreshBoundary (now : DateTime) : DateTime :=
  ⟨now.day, 20 * 60⟩

/-- app.py, the private need-refresh predicate: refresh when no fetch
happened yet, or now has reached today at 20:00 while the last fetch
was before that instant, or the last fetch happened on an earlier
calendar day.  The wall-clock read datetime.now() is the parameter
now. -/
def need_refresh (last_at : Option DateTime) (now : DateTime) : Bool :=
  let tgt := refreshBoundary now
  match last_at with
  | Option.none => true
  | some la => (decide (dtLE tgt now) && decide (dtLT la tgt)) || decide (la.day < now.day)

/-- app.py session state: the cached dataframe and the instant of the
last fetch, both absent on a fresh session. -/
structure SessionState (α : Type) where
  cached_df : Option α
  last_fetch_at : Option DateTime
deriving DecidableEq, Repr

/-- app.py, fetch_api_data: when the need-refresh predicate fires the
fresh API result (parameter api) replaces the cache and the fetch
instant is recorded; otherwise the cached value is returned and the
state is untouched.  The Bool records whether a rebuild happened. -/
def fetch_api_data (api : α) (now : DateTime) (st : SessionState α) :
    Option α × SessionState α × Bool :=
  if need_refresh st.last_fetch_at now then
    (some api, ⟨some api, some now⟩, true)
  else
    (st.cached_df, st, false)

/-- Two records do not collide on the (index_code, fetch_date) pair. -/
def pairNe (a b : Record) : Prop :=
  a.index_code ≠ b.index_code ∨ a.fetch_date ≠ b.fetch_date

instance : DecidableRel pairNe := fun a b => by
  unfold pairNe; infer_instance

/-- Sample records used to instantiate the claims on concrete
inputs. -/
def recA : Record := ⟨"idx.a", "apple", "2024-01-01", 0, []⟩

def recB : Record := ⟨"idx.b", "banana", "2024-01-01", 0, []⟩

def recOld : Record := ⟨"idx.c", "cherry", "2023-12-30", 0, []⟩

/-- Modelled from the spec: the staleness predicate of section 4.4,
written from its words — no cache yet, or the cached calendar date is
strictly before the current date, or the boundary instant of the
current day lies strictly after the cache time and at or before now. -/
def staleSpec (last_at : Option DateTime) (now : DateTime) : Prop :=
  match last_at with
  | Option.none => True
  | some la =>
      la.day < now.day ∨
        (dtLT la (refreshBoundary now) ∧ dtLE (refreshBoundary now) now)

/-- A starting filesystem holding a previously persisted document. -/
def fsOld : FileSys :=
  fun p => if p = DATA_FILE then some "old content" else Option.none

/-- A ten item batch of which exactly two lack the index_code key. -/
def items10 : List Dict :=
  [[("index_code", PyVal.s "i0")], [("index_code", PyVal.s "i1")],
   [("index_code", PyVal.s "i2")], [("index_code", PyVal.s "i3")],
   [("index_code", PyVal.s "i4")], [("index_code", PyVal.s "i5")],
   [("index_code", PyVal.s "i6")], [("index_code", PyVal.s "i7")],
   [("name", PyVal.s "missing one")], [("name", PyVal.s "missing two")]]

/-- A raw item carrying both the misspelled and the canonical
dividend-yield key. -/
def itemBoth : Dict :=
  [("index_code", PyVal.s "x"), ("yeild", PyVal.i 5),
   ("dividend_yield", PyVal.i 7)]

/-- A raw item carrying neither dividend-yield key. -/
def itemNeither : Dict := [("index_code", PyVal.s "x")]

/-- The executable comparison agrees with lexicographic ordering of
character lists. -/
theorem strLTlist_iff_lex : ∀ (a b : List Char),
    strLTlist a b = true ↔ List.Lex (· < ·) a b
  | [], [] => by
    simp only [strLTlist, Bool.false_eq_true, false_iff]
    exact List.Lex.not_nil_right _ _
  | [], y :: ys => by
    simp only [strLTlist, true_iff]
    exact List.Lex.nil
  | x :: xs, [] => by
    simp only [strLTlist, Bool.false_eq_true, false_iff]
    exact List.Lex.not_nil_right _ _
  | x :: xs, y :: ys => by
    simp only [strLTlist]
    by_cases h : x = y
    · subst h
      rw [if_pos rfl, strLTlist_iff_lex xs ys]
      constructor
      · exact fun hl => List.Lex.cons hl
      · intro hl
        cases hl with
        | cons h => exact h
        | rel hr => exact absurd hr (lt_irrefl x)
    · rw [if_neg h]
      constructor
      · intro hd
        exact List.Lex.rel (of_decide_eq_true hd)
      · intro hl
        cases hl with
        | cons h1 => exact absurd rfl h
        | rel hr => exact decide_eq_true hr

theorem strLT_trans {a b c : String} (hab : strLT a b = true) (hbc : strLT b c = true) :
    strLT a c = true := by
  rw [strLT, strLTlist_iff_lex] at *
  exact IsTrans.trans a.data b.data c.data hab hbc

theorem strLT_asymm {a b : String} (hab : strLT a b = true) (hba : strLT b a = true) :
    False := by
  rw [strLT, strLTlist_iff_lex] at *
  exact IsAsymm.asymm a.data b.data hab hba

theorem strLT_trichotomy (a b : String) :
    strLT a b = true ∨ a = b ∨ strLT b a = true := by
  rcases (List.Lex.isTrichotomous (r := (· < ·))).trichotomous a.data b.data with h | h | h
  · exact Or.inl ((strLTlist_iff_lex a.data b.data).mpr h)
  · refine Or.inr (Or.inl ?_)
    cases a; cases b
    exact congrArg String.mk h
  · exact Or.inr (Or.inr ((strLTlist_iff_lex b.data a.data).mpr h))

theorem strLE_of_strLT {a b : String} (h : strLT a b = true) : strLE a b = true := by
  rw [strLE, Bool.not_eq_true']
  by_contra hba
  rw [Bool.not_eq_false] at hba
  exact strLT_asymm h hba

theorem strLE_refl (a : String) : strLE a a = true := by
  rw [strLE, Bool.not_eq_true']
  by_contra h
  rw [Bool.not_eq_false] at h
  exact strLT_asymm h h

theorem strLE_total (a b : String) : strLE a b = true ∨ strLE b a = true := by
  rcases strLT_trichotomy a b with h | h | h
  · exact Or.inl (strLE_of_strLT h)
  · exact Or.inl (h ▸ strLE_refl a)
  · exact Or.inr (strLE_of_strLT h)

theorem strLE_trans {a b c : String} (hab : strLE a b = true) (hbc : strLE b c = true) :
    strLE a c = true := by
  rw [strLE, Bool.not_eq_true'] at *
  by_contra hca
  rw [Bool.not_eq_false] at hca
  rcases strLT_trichotomy b c with h | h | h
  · exact absurd (strLT_trans h hca) (by rw [hab]; exact Bool.false_ne_true)
  · subst h
    exact absurd hca (by rw [hab]; exact Bool.false_ne_true)
  · exact absurd h (by rw [hbc]; exact Bool.false_ne_true)

instance : IsTotal Record keyGE where
  total a b := by
    unfold keyGE keyLE
    rcases strLT_trichotomy a.fetch_date b.fetch_date with h | h | h
    · exact Or.inr (Or.inl h)
    · rcases strLE_total a.name b.name with hn | hn
      · exact Or.inr (Or.inr ⟨h, hn⟩)
      · exact Or.inl (Or.inr ⟨h.symm, hn⟩)
    · exact Or.inl (Or.inl h)

instance : IsTrans Record keyGE where
  trans a b c hab hbc := by
    unfold keyGE keyLE at *
    rcases hab with h1 | ⟨e1, n1⟩ <;> rcases hbc with h2 | ⟨e2, n2⟩
    · exact Or.inl (strLT_trans h2 h1)
    · exact Or.inl (e2 ▸ h1)
    · exact Or.inl (e1 ▸ h2)
    · exact Or.inr ⟨e2.trans e1, strLE_trans n2 n1⟩

section StableSortLemmas

variable {α : Type} (r : α → α → Prop) [DecidableRel r]

/-- Inserting an element that relates to everything in the list puts it
at the front. -/
theorem orderedInsert_of_forall {a : α} :
    ∀ {l : List α}, (∀ b ∈ l, r a b) → List.orderedInsert r a l = a :: l
  | [], _ => rfl
  | b :: l, h => by
    simp only [List.orderedInsert, if_pos (h b (List.mem_cons_self b l))]

/-- Two ordered insertions commute when the second element does not
relate to the first. -/
theorem orderedInsert_comm [IsTotal α r] [IsTrans α r] {a x : α} (hax : ¬ r a x) :
    ∀ L : List α, List.orderedInsert r x (List.orderedInsert r a L) =
      List.orderedInsert r a (List.orderedInsert r x L)
  | [] => by
    have hxa : r x a := (IsTotal.total a x).resolve_left hax
    simp [List.orderedInsert, if_pos hxa, if_neg hax]
  | b :: bs => by
    have hxa : r x a := (IsTotal.total a x).resolve_left hax
    by_cases hab : r a b
    · have hxb : r x b := IsTrans.trans x a b hxa hab
      simp only [List.orderedInsert, if_pos hab, if_pos hxb, if_pos hxa, if_neg hax]
    · by_cases hxb : r x b
      · simp only [List.orderedInsert, if_neg hab, if_pos hxb, if_neg hax]
      · simp only [List.orderedInsert, if_neg hab, if_neg hxb, if_neg hax]
        rw [orderedInsert_comm hax bs]

/-- Sorting a list whose head part received an ordered insertion is the
same as inserting into the sorted whole. -/
theorem insertionSort_orderedInsert_append [IsTotal α r] [IsTrans α r] (a : α) :
    ∀ (l R : List α), List.insertionSort r (List.orderedInsert r a l ++ R) =
      List.orderedInsert r a (List.insertionSort r (l ++ R))
  | [], R => rfl
  | b :: bs, R => by
    by_cases hab : r a b
    · simp only [List.orderedInsert, if_pos hab, List.cons_append, List.insertionSort]
      rfl
    · simp only [List.orderedInsert, if_neg hab, List.cons_append, List.insertionSort]
      rw [insertionSort_orderedInsert_append a bs R, orderedInsert_comm r hab]
      rfl

/-- Sorting is unaffected by pre-sorting a prefix: the key identity
behind idempotence of the merge pipeline. -/
theorem insertionSort_insertionSort_append [IsTotal α r] [IsTrans α r] :
    ∀ (Y R : List α), List.insertionSort r (List.insertionSort r Y ++ R) =
      List.insertionSort r (Y ++ R)
  | [], R => rfl
  | y :: ys, R => by
    simp only [List.insertionSort, List.cons_append]
    rw [insertionSort_orderedInsert_append r y (List.insertionSort r ys) R,
      insertionSort_insertionSort_append ys R]
    rfl

/-- Filtering distributes over an ordered insertion into a sorted
list. -/
theorem filter_orderedInsert [IsTrans α r] (p : α → Bool) {a : α} :
    ∀ {l : List α}, List.Sorted r l →
      List.filter p (List.orderedInsert r a l) =
        if p a then List.orderedInsert r a (List.filter p l) else List.filter p l
  | [], _ => by
    by_cases hpa : p a <;> simp [List.orderedInsert, hpa]
  | x :: xs, hl => by
    by_cases hax : r a x
    · have hall : ∀ b ∈ List.filter p (x :: xs), r a b := by
        intro b hb
        have hbmem : b ∈ x :: xs := List.mem_of_mem_filter hb
        rcases List.mem_cons.mp hbmem with hbx | hbxs
        · exact hbx ▸ hax
        · exact IsTrans.trans a x b hax (List.rel_of_sorted_cons hl b hbxs)
      have h1 : List.orderedInsert r a (x :: xs) = a :: x :: xs := by
        simp only [List.orderedInsert, if_pos hax]
      rw [h1, List.filter_cons]
      by_cases hpa : p a
      · rw [if_pos hpa, if_pos hpa, orderedInsert_of_forall r hall]
      · rw [if_neg hpa, if_neg hpa]
    · have h2 : List.orderedInsert r a (x :: xs) = x :: List.orderedInsert r a xs := by
        simp only [List.orderedInsert, if_neg hax]
      have hIH := filter_orderedInsert p (a := a) hl.of_cons
      rw [h2]
      by_cases hpx : p x
      · rw [List.filter_cons, if_pos hpx, hIH, List.filter_cons, if_pos hpx]
        by_cases hpa : p a
        · rw [if_pos hpa, if_pos hpa]
          simp only [List.orderedInsert, if_neg hax]
        · rw [if_neg hpa, if_neg hpa]
      · rw [List.filter_cons, if_neg hpx, hIH, List.filter_cons, if_neg hpx]

/-- Filtering commutes with the stable insertion sort. -/
theorem filter_insertionSort [IsTotal α r] [IsTrans α r] (p : α → Bool) :
    ∀ l : List α, List.filter p (List.insertionSort r l) =
      List.insertionSort r (List.filter p l)
  | [] => rfl
  | a :: l => by
    simp only [List.insertionSort]
    rw [filter_orderedInsert r p (List.sorted_insertionSort r l),
      filter_insertionSort p l]
    by_cases hpa : p a
    · simp [List.filter, hpa, List.insertionSort]
    · simp [List.filter, hpa]

end StableSortLemmas

theorem pairNe_symm {a b : Record} (h : pairNe a b) : pairNe b a :=
  h.imp Ne.symm Ne.symm

/-- Unfolding of the merge sequence into its two filters and the
sort. -/
theorem mergeAndSave_eq (existing new_records : List Record) (today cutoff : String) :
    mergeAndSave existing new_records today cutoff =
      List.insertionSort keyGE
        (List.filter (fun item => strLE cutoff item.fetch_date)
          (existing.filter (fun item => decide (item.fetch_date ≠ today))
            ++ new_records)) := rfl

/-- Two filters over the same list commute. -/
theorem filter_swap {α : Type} (p q : α → Bool) (l : List α) :
    List.filter p (List.filter q l) = List.filter q (List.filter p l) := by
  rw [List.filter_filter, List.filter_filter]
  apply List.filter_congr
  intro a _
  exact Bool.and_comm (p a) (q a)

/-- Filtering twice with one predicate is filtering once. -/
theorem filter_self_idem {α : Type} (p : α → Bool) (l : List α) :
    List.filter p (List.filter p l) = List.filter p l := by
  rw [List.filter_filter]
  apply List.filter_congr
  intro a _
  exact Bool.and_self (p a)

/-- Unfolding of the lookup over a cons cell. -/
theorem dget_cons (k0 : String) (v0 : PyVal) (rest : Dict) (k : String) :
    dget ((k0, v0) :: rest) k = if k0 = k then some v0 else dget rest k := rfl

/-- In-place replacement stores the written value under the key. -/
theorem dget_setInPlace_self (k : String) (v : PyVal) :
    ∀ (d : Dict), (dget d k).isSome = true →
      dget (setInPlace d k v) k = some v
  | [], h => by simp [dget] at h
  | (k0, v0) :: rest, h => by
    by_cases hk : k0 = k
    · rw [setInPlace, if_pos hk, dget_cons, if_pos rfl]
    · rw [setInPlace, if_neg hk, dget_cons, if_neg hk]
      rw [dget_cons, if_neg hk] at h
      exact dget_setInPlace_self k v rest h

/-- In-place replacement leaves other keys untouched. -/
theorem dget_setInPlace_ne (k : String) (v : PyVal) (k' : String) (h : k ≠ k') :
    ∀ (d : Dict), dget (setInPlace d k v) k' = dget d k'
  | [] => rfl
  | (k0, v0) :: rest => by
    by_cases hk : k0 = k
    · rw [setInPlace, if_pos hk, dget_cons, if_neg h, dget_cons,
        if_neg (fun hEq => h (hk.symm.trans hEq))]
      exact dget_setInPlace_ne k v k' h rest
    · rw [setInPlace, if_neg hk, dget_cons, dget_cons]
      by_cases hk' : k0 = k'
      · rw [if_pos hk', if_pos hk']
      · rw [if_neg hk', if_neg hk']
        exact dget_setInPlace_ne k v k' h rest

/-- Appending a fresh binding makes it visible when the key was
absent. -/
theorem dget_append_self (k : String) (v : PyVal) :
    ∀ (d : Dict), (dget d k).isSome = false →
      dget (d ++ [(k, v)]) k = some v
  | [], _ => by rw [List.nil_append, dget_cons, if_pos rfl]
  | (k0, v0) :: rest, h => by
    by_cases hk : k0 = k
    · rw [dget_cons, if_pos hk] at h
      simp at h
    · rw [dget_cons, if_neg hk] at h
      rw [List.cons_append, dget_cons, if_neg hk]
      exact dget_append_self k v rest h

/-- Appending a binding for one key leaves other keys untouched. -/
theorem dget_append_ne (k : String) (v : PyVal) (k' : String) (h : k ≠ k') :
    ∀ (d : Dict), dget (d ++ [(k, v)]) k' = dget d k'
  | [] => by rw [List.nil_append, dget_cons, if_neg h]
  | (k0, v0) :: rest => by
    rw [List.cons_append, dget_cons, dget_cons]
    by_cases hk' : k0 = k'
    · rw [if_pos hk', if_pos hk']
    · rw [if_neg hk', if_neg hk']
      exact dget_append_ne k v k' h rest

/-- Lookup after setting the same key returns the written value. -/
theorem dget_dset_self (d : Dict) (k : String) (v : PyVal) :
    dget (dset d k v) k = some v := by
  unfold dset
  by_cases hc : dcontains d k
  · rw [if_pos hc]
    exact dget_setInPlace_self k v d hc
  · rw [if_neg hc]
    exact dget_append_self k v d (Bool.not_eq_true _ ▸ hc)

/-- Lookup of a different key is unaffected by a set. -/
theorem dget_dset_ne (d : Dict) (k : String) (v : PyVal) (k' : String)
    (h : k ≠ k') : dget (dset d k v) k' = dget d k' := by
  unfold dset
  by_cases hc : dcontains d k
  · rw [if_pos hc]
    exact dget_setInPlace_ne k v k' h d
  · rw [if_neg hc]
    exact dget_append_ne k v k' h d

/-- Lookup of the popped key fails after the pop. -/
theorem dget_dpop_self : ∀ (d : Dict) (k : String),
    dget (dpop d k) k = Option.none
  | [], _ => rfl
  | (k0, v0) :: rest, k => by
    unfold dpop
    rw [List.filter_cons]
    by_cases hk : k0 = k
    · have hd : (decide ((k0, v0).1 ≠ k)) = false := by simp [hk]
      rw [hd, if_neg Bool.false_ne_true]
      exact dget_dpop_self rest k
    · have hd : (decide ((k0, v0).1 ≠ k)) = true := by simp [hk]
      rw [hd, if_pos rfl, dget_cons, if_neg hk]
      exact dget_dpop_self rest k

/-- Lookup of a different key is unaffected by a pop. -/
theorem dget_dpop_ne (k k' : String) (h : k ≠ k') :
    ∀ (d : Dict), dget (dpop d k) k' = dget d k'
  | [] => rfl
  | (k0, v0) :: rest => by
    unfold dpop
    rw [List.filter_cons]
    by_cases hk : k0 = k
    · have hd : (decide ((k0, v0).1 ≠ k)) = false := by simp [hk]
      rw [hd, if_neg Bool.false_ne_true, dget_cons,
        if_neg (fun hEq => h (hk.symm.trans hEq))]
      exact dget_dpop_ne k k' h rest
    · have hd : (decide ((k0, v0).1 ≠ k)) = true := by simp [hk]
      rw [hd, if_pos rfl, dget_cons, dget_cons]
      by_cases hk' : k0 = k'
      · rw [if_pos hk', if_pos hk']
      · rw [if_neg hk', if_neg hk']
        exact dget_dpop_ne k k' h rest

/-- The metadata stamp leaves every key other than fetch_date and
fetch_timestamp untouched. -/
theorem dget_stampMeta_other (item : Dict) (fd : String) (ts : Int) (k : String)
    (h1 : k ≠ "fetch_date") (h2 : k ≠ "fetch_timestamp") :
    dget (stampMeta item fd ts) k = dget item k := by
  unfold stampMeta
  rw [dget_dset_ne _ _ _ _ (fun hEq => h2 hEq.symm),
    dget_dset_ne _ _ _ _ (fun hEq => h1 hEq.symm)]

/-- The dividend-yield fix leaves every key other than yeild and
dividend_yield untouched. -/
theorem dget_fixYeild_other (r : Dict) (k : String)
    (h1 : k ≠ "yeild") (h2 : k ≠ "dividend_yield") :
    dget (fixYeild r) k = dget r k := by
  unfold fixYeild
  cases hv : dget r "yeild" with
  | none => rfl
  | some v =>
    rw [dget_dset_ne _ _ _ _ (fun hEq => h2 hEq.symm),
      dget_dpop_ne _ _ (fun hEq => h1 hEq.symm)]

/-- The bond-yield fix leaves every key other than bond_yeild and
bond_yield untouched. -/
theorem dget_fixBondYeild_other (r : Dict) (k : String)
    (h1 : k ≠ "bond_yeild") (h2 : k ≠ "bond_yield") :
    dget (fixBondYeild r) k = dget r k := by
  unfold fixBondYeild
  cases hv : dget r "bond_yeild" with
  | none => rfl
  | some v =>
    rw [dget_dset_ne _ _ _ _ (fun hEq => h2 hEq.symm),
      dget_dpop_ne _ _ (fun hEq => h1 hEq.symm)]

/-- C1 counterexample: with a new record list that repeats one record,
the merge sequence followed by load yields a store in which two
records share the (index_code, fetch_date) pair, so the claim fails
for arbitrary new record lists. -/
theorem merge_then_load_unique_pairs_counterexample :
    ¬ (load_existing_data true (Except.ok
        (mergeAndSave [] [recA, recA] "2024-01-01"
          "2023-10-03"))).Pairwise pairNe := by
  decide

/-- C1 (amended): when the existing store already satisfies the
(index_code, fetch_date) uniqueness invariant, every new record is
dated today, and the new records carry pairwise distinct index codes,
the store written by the merge sequence and read back by load contains
no two records sharing (index_code, fetch_date). -/
theorem merge_then_load_unique_pairs
    (existing new_records : List Record) (today cutoff : String)
    (hex : existing.Pairwise pairNe)
    (hdate : ∀ r ∈ new_records, r.fetch_date = today)
    (hcode : new_records.Pairwise (fun a b => a.index_code ≠ b.index_code)) :
    (load_existing_data true (Except.ok
        (mergeAndSave existing new_records today cutoff))).Pairwise pairNe := by
  show (mergeAndSave existing new_records today cutoff).Pairwise pairNe
  rw [mergeAndSave_eq]
  have happ : (existing.filter (fun item => decide (item.fetch_date ≠ today))
      ++ new_records).Pairwise pairNe := by
    rw [List.pairwise_append]
    refine ⟨hex.filter _, hcode.imp (fun h => Or.inl h), ?_⟩
    intro a ha b hb
    have hat : a.fetch_date ≠ today :=
      of_decide_eq_true (List.mem_filter.mp ha).2
    exact Or.inr (fun hEq => hat (hEq.trans (hdate b hb)))
  have hclean := happ.filter (fun item => strLE cutoff item.fetch_date)
  exact hclean.perm (List.perm_insertionSort keyGE _).symm
    (fun h => pairNe_symm h)

/-- Closed instance of the C1 theorem at concrete inputs. -/
theorem merge_then_load_unique_pairs_witness :
    (load_existing_data true (Except.ok
        (mergeAndSave [recOld] [recA, recB] "2024-01-01"
          "2023-10-03"))).Pairwise pairNe :=
  merge_then_load_unique_pairs [recOld] [recA, recB] "2024-01-01" "2023-10-03"
    (by decide) (by decide) (by decide)

/-- C2: applying the merge-and-save sequence twice in a row with the
identical new records for the same collection day gives the same store
as applying it once; the hypotheses say the new records are all dated
today (as prepare_records stamps them) and the retention cutoff does
not lie after today. -/
theorem mergeAndSave_idem
    (S R : List Record) (today cutoff : String)
    (hdate : ∀ r ∈ R, r.fetch_date = today)
    (hcut : strLE cutoff today = true) :
    mergeAndSave (mergeAndSave S R today cutoff) R today cutoff =
      mergeAndSave S R today cutoff := by
  have hfilterR : R.filter (fun item => decide (item.fetch_date ≠ today)) = [] := by
    rw [List.filter_eq_nil_iff]
    intro r hr
    simp [hdate r hr]
  have hcleanR : R.filter (fun item => strLE cutoff item.fetch_date) = R := by
    rw [List.filter_eq_self]
    intro r hr
    rw [hdate r hr]
    exact hcut
  have hM : ∀ T : List Record, mergeAndSave T R today cutoff =
      List.insertionSort keyGE
        (List.filter (fun item => strLE cutoff item.fetch_date)
          (List.filter (fun item => decide (item.fetch_date ≠ today)) T) ++ R) := by
    intro T
    rw [mergeAndSave_eq, List.filter_append, hcleanR]
  rw [hM S, hM]
  have hstep : List.filter (fun item => strLE cutoff item.fetch_date)
      (List.filter (fun item => decide (item.fetch_date ≠ today))
        (List.insertionSort keyGE
          (List.filter (fun item => strLE cutoff item.fetch_date)
            (List.filter (fun item => decide (item.fetch_date ≠ today)) S) ++ R))) =
      List.insertionSort keyGE
        (List.filter (fun item => strLE cutoff item.fetch_date)
          (List.filter (fun item => decide (item.fetch_date ≠ today)) S)) := by
    rw [filter_insertionSort keyGE, filter_insertionSort keyGE,
      List.filter_append, hfilterR, List.append_nil,
      filter_swap (fun item : Record => decide (item.fetch_date ≠ today))
        (fun item : Record => strLE cutoff item.fetch_date),
      filter_self_idem, filter_self_idem]
  rw [hstep, insertionSort_insertionSort_append keyGE]

/-- Closed instance of the C2 theorem at concrete inputs. -/
theorem mergeAndSave_idem_witness :
    mergeAndSave (mergeAndSave [recOld] [recA] "2024-01-01" "2023-10-03")
        [recA] "2024-01-01" "2023-10-03" =
      mergeAndSave [recOld] [recA] "2024-01-01" "2023-10-03" :=
  mergeAndSave_idem [recOld] [recA] "2024-01-01" "2023-10-03"
    (by decide) (by decide)

/-- C5: every record in the store produced by the merge sequence has a
fetch_date that is not lexicographically below the retention cutoff
string computed from the retention window. -/
theorem mergeAndSave_retention
    (existing new_records : List Record) (today cutoff : String)
    (r : Record) (hr : r ∈ mergeAndSave existing new_records today cutoff) :
    strLE cutoff r.fetch_date = true := by
  rw [mergeAndSave_eq, List.mem_insertionSort] at hr
  exact (List.mem_filter.mp hr).2

/-- Closed instance of the C5 theorem at concrete inputs. -/
theorem mergeAndSave_retention_witness :
    strLE "2023-10-03" recA.fetch_date = true :=
  mergeAndSave_retention [recOld] [recA] "2024-01-01" "2023-10-03" recA
    (by decide)

/-- C8 counterexample: two same-day records whose names are in strictly
increasing order come out of the merge sequence in reversed order, so
the persisted store is not sorted by name ascending within equal
dates. -/
theorem mergeAndSave_sort_name_descending_counterexample :
    strLT recA.name recB.name = true ∧
      mergeAndSave [] [recA, recB] "2024-01-01" "2023-10-03" = [recB, recA] := by
  constructor
  · decide
  · decide

/-- C8 (amended): the store written by the merge sequence is always
sorted by fetch_date descending and, within equal dates, by name
descending, because save_data reverses the whole (fetch_date, name)
sort key; the ordering is still deterministic. -/
theorem mergeAndSave_sorted :
    ∀ (existing new_records : List Record) (today cutoff : String),
      (mergeAndSave existing new_records today cutoff).Pairwise keyGE := by
  intro existing new_records today cutoff
  unfold mergeAndSave sortData
  exact List.sorted_insertionSort keyGE _

/-- C3 counterexample: starting from a filesystem holding a previously
persisted document, a save that fails right after its first filesystem
operation (the in-place truncating open) leaves the durable document
empty, not byte-for-byte unchanged. -/
theorem save_data_not_atomic_counterexample :
    fsOld DATA_FILE = some "old content" ∧
      runOps fsOld ((save_data_ops "new content").take 1) DATA_FILE = some "" ∧
      runOps fsOld ((save_data_ops "new content").take 1) DATA_FILE ≠
        fsOld DATA_FILE := by
  refine ⟨rfl, rfl, ?_⟩
  intro h
  simp [runOps, save_data_ops, applyOp, DATA_FILE, fsOld] at h

/-- C3 (amended): save_data does not write to a temporary location; it
opens the target document in place. A completed run leaves the new
serialized content, but a run interrupted after the truncating open
leaves the document empty, so a write failure can destroy the prior
durable state; save_data reports failure by returning False instead of
raising. -/
theorem save_data_writes_in_place :
    ∀ (fs : FileSys) (content : String),
      save_data_ops content =
        [FsOp.openTrunc DATA_FILE, FsOp.writeAll DATA_FILE content] ∧
      runOps fs (save_data_ops content) DATA_FILE = some content ∧
      runOps fs ((save_data_ops content).take 1) DATA_FILE = some "" := by
  intro fs content
  refine ⟨rfl, ?_, ?_⟩ <;> simp [runOps, save_data_ops, applyOp]

/-- C4: the rebuild decision of the refresh scheduler agrees exactly
with the spec staleness predicate, and on the concrete scenario with
the cache taken at 19:00 of day 0, a call at 19:30 returns the cache
unmodified, a call at 20:30 performs exactly one rebuild, and a
subsequent call at 20:45 performs no further rebuild. -/
theorem need_refresh_exact :
    (∀ (last_at : Option DateTime) (now : DateTime),
      need_refresh last_at now = true ↔ staleSpec last_at now) ∧
      fetch_api_data 1 ⟨0, 19 * 60 + 30⟩ ⟨some 0, some ⟨0, 19 * 60⟩⟩ =
        (some 0, ⟨some 0, some ⟨0, 19 * 60⟩⟩, false) ∧
      fetch_api_data 1 ⟨0, 20 * 60 + 30⟩ ⟨some 0, some ⟨0, 19 * 60⟩⟩ =
        (some 1, ⟨some 1, some ⟨0, 20 * 60 + 30⟩⟩, true) ∧
      fetch_api_data 2 ⟨0, 20 * 60 + 45⟩ ⟨some 1, some ⟨0, 20 * 60 + 30⟩⟩ =
        (some 1, ⟨some 1, some ⟨0, 20 * 60 + 30⟩⟩, false) := by
  refine ⟨?_, by decide, by decide, by decide⟩
  intro last_at now
  cases last_at with
  | none => simp [need_refresh, staleSpec]
  | some la =>
    simp only [need_refresh, staleSpec, Bool.or_eq_true, Bool.and_eq_true,
      decide_eq_true_eq]
    tauto

/-- C6 counterexample: a batch of ten raw items of which two lack the
index_code key is normalized into ten records, not eight, and
prepare_records computes no skipped count at all. -/
theorem prepare_records_no_skip_counterexample :
    (items10.filter (fun d => !(dcontains d "index_code"))).length = 2 ∧
      (prepare_records items10 "2024-01-01" 0).length = 10 ∧
      (prepare_records items10 "2024-01-01" 0).length ≠ 8 := by
  refine ⟨by decide, by decide, by decide⟩

/-- C6 (amended): prepare_records keeps every raw item of the batch,
whether or not it carries the index_code key; the output length always
equals the input length and no skipped count exists. -/
theorem prepare_records_keeps_every_item :
    ∀ (items : List Dict) (fetch_date : String) (ts : Int),
      (prepare_records items fetch_date ts).length = items.length := by
  intro items fetch_date ts
  unfold prepare_records
  exact List.length_map items _

/-- C7 counterexample: on an item carrying both the misspelled and the
canonical dividend-yield key, prepare_records renames anyway and
overwrites the canonical value, so the renaming is not guarded by the
canonical key being absent; and on an item with neither key the
canonical key is left absent rather than set to a missing marker. -/
theorem prepare_record_rename_counterexample :
    dget itemBoth "yeild" = some (PyVal.i 5) ∧
      dget itemBoth "dividend_yield" = some (PyVal.i 7) ∧
      dget (prepare_record itemBoth "2024-01-01" 0) "dividend_yield" =
        some (PyVal.i 5) ∧
      dget (prepare_record itemBoth "2024-01-01" 0) "dividend_yield" ≠
        some (PyVal.i 7) ∧
      dget (prepare_record itemNeither "2024-01-01" 0) "dividend_yield" =
        Option.none := by
  refine ⟨by decide, by decide, by decide, by decide, by decide⟩

/-- C7 (amended): prepare_records renames the misspelled
dividend-yield key to the canonical name whenever the misspelled key
is present, overwriting any existing canonical value, and likewise for
the bond-yield key; it never sets a missing marker, so an item without
either dividend-yield key yields a record without the canonical key;
an item with only the misspelled key yields a record whose canonical
key holds that value and whose misspelled key is absent. -/
theorem prepare_record_rename_semantics :
    ∀ (item : Dict) (fd : String) (ts : Int),
      (∀ v, dget item "yeild" = some v →
        dget (prepare_record item fd ts) "dividend_yield" = some v ∧
          dget (prepare_record item fd ts) "yeild" = Option.none) ∧
      (dget item "yeild" = Option.none →
        dget item "dividend_yield" = Option.none →
          dget (prepare_record item fd ts) "dividend_yield" = Option.none) ∧
      (∀ w, dget item "bond_yeild" = some w →
        dget (prepare_record item fd ts) "bond_yield" = some w ∧
          dget (prepare_record item fd ts) "bond_yeild" = Option.none) := by
  intro item fd ts
  have hyS : dget (stampMeta item fd ts) "yeild" = dget item "yeild" :=
    dget_stampMeta_other item fd ts "yeild" (by decide) (by decide)
  have hdS : dget (stampMeta item fd ts) "dividend_yield" =
      dget item "dividend_yield" :=
    dget_stampMeta_other item fd ts "dividend_yield" (by decide) (by decide)
  have hbS : dget (stampMeta item fd ts) "bond_yeild" =
      dget item "bond_yeild" :=
    dget_stampMeta_other item fd ts "bond_yeild" (by decide) (by decide)
  refine ⟨?_, ?_, ?_⟩
  · intro v hv
    have hy : dget (stampMeta item fd ts) "yeild" = some v := hyS.trans hv
    have hfix : fixYeild (stampMeta item fd ts) =
        dset (dpop (stampMeta item fd ts) "yeild") "dividend_yield" v := by
      unfold fixYeild
      rw [hy]
    constructor
    · unfold prepare_record
      rw [dget_fixBondYeild_other _ _ (by decide) (by decide), hfix,
        dget_dset_self]
    · unfold prepare_record
      rw [dget_fixBondYeild_other _ _ (by decide) (by decide), hfix,
        dget_dset_ne _ _ _ _ (by decide), dget_dpop_self]
  · intro hy0 hd0
    have hy : dget (stampMeta item fd ts) "yeild" = Option.none := hyS.trans hy0
    have hfix : fixYeild (stampMeta item fd ts) = stampMeta item fd ts := by
      unfold fixYeild
      rw [hy]
    unfold prepare_record
    rw [dget_fixBondYeild_other _ _ (by decide) (by decide), hfix, hdS]
    exact hd0
  · intro w hw
    have hb : dget (fixYeild (stampMeta item fd ts)) "bond_yeild" = some w := by
      rw [dget_fixYeild_other _ _ (by decide) (by decide), hbS]
      exact hw
    have hfix : fixBondYeild (fixYeild (stampMeta item fd ts)) =
        dset (dpop (fixYeild (stampMeta item fd ts)) "bond_yeild")
          "bond_yield" w := by
      unfold fixBondYeild
      rw [hb]
    constructor
    · unfold prepare_record
      rw [hfix, dget_dset_self]
    · unfold prepare_record
      rw [hfix, dget_dset_ne _ _ _ _ (by decide), dget_dpop_self]

/-- Closed instance of the C7 theorem at concrete inputs. -/
theorem prepare_record_rename_semantics_witness :
    dget (prepare_record [("yeild", PyVal.i 5)] "2024-01-01" 0)
        "dividend_yield" = some (PyVal.i 5) ∧
      dget (prepare_record [("yeild", PyVal.i 5)] "2024-01-01" 0)
        "yeild" = Option.none :=
  (prepare_record_rename_semantics [("yeild", PyVal.i 5)] "2024-01-01" 0).1
    (PyVal.i 5) rfl

/-- C9 counterexample: the summary of the empty store does not carry a
zero day count or a zero index count; those keys are absent
entirely. -/
theorem get_data_summary_empty_counterexample :
    dget (get_data_summary (PyVal.i 0) []) "total_days" = Option.none ∧
      dget (get_data_summary (PyVal.i 0) []) "total_days" ≠
        some (PyVal.i 0) ∧
      dget (get_data_summary (PyVal.i 0) []) "total_indices" =
        Option.none := by
  refine ⟨by decide, by decide, by decide⟩

/-- C9 (amended): the summary of the empty store is exactly the one
entry dictionary with total_records zero; the day count, index count
and both date fields are absent, and no failure occurs. -/
theorem get_data_summary_empty :
    ∀ (file_size_mb : PyVal),
      get_data_summary file_size_mb [] = [("total_records", PyVal.i 0)] ∧
      dget (get_data_summary file_size_mb []) "total_days" = Option.none ∧
      dget (get_data_summary file_size_mb []) "total_indices" = Option.none ∧
      dget (get_data_summary file_size_mb []) "earliest_date" = Option.none ∧
      dget (get_data_summary file_size_mb []) "latest_date" = Option.none := by
  intro file_size_mb
  refine ⟨rfl, rfl, rfl, rfl, rfl⟩

/-- C10: when the durable document exists but reading or parsing it
fails, load returns the empty store exactly as when the file is
absent, and a subsequent merge sequence therefore starts from the
empty store, replacing all prior history. -/
theorem load_corrupt_returns_empty :
    ∀ (msg : String) (new_records : List Record) (today cutoff : String),
      load_existing_data true (Except.error msg) = [] ∧
      load_existing_data false (Except.error msg) = [] ∧
      mergeAndSave (load_existing_data true (Except.error msg))
          new_records today cutoff =
        mergeAndSave [] new_records today cutoff := by
  intro msg new_records today cutoff
  exact ⟨rfl, rfl, rfl⟩

end Valuation
